import Mathlib

/-!
Verification development for the `et-api` scraper
(`scraper_playwright.py`, `db.py`).

The Python source is shallowly embedded: pure text-processing helpers become
Lean functions on `String` / `List Char`; Python `None` becomes `Option`;
Python `float` on the decimal fragment exercised here is modelled exactly with
`ℚ`; the sqlite store becomes an association list of records keyed by `etid`,
and the per-page upsert transaction becomes an explicit
apply-all-then-commit-or-rollback function.
-/

/-! ## Generic character and list helpers (Python string primitives) -/

/-- Characters treated as whitespace by Python `str.strip()` / `re` `\s`
(restricted to the code points that can actually occur in the scraped text). -/
def isPyWs (c : Char) : Bool :=
  c = ' ' || c = '\t' || c = '\n' || c = '\r' || c = '\x0b' || c = '\x0c' || c = ' '

/-- Python `str.strip()` on a character list. -/
def pyStripList (l : List Char) : List Char :=
  ((l.dropWhile isPyWs).reverse.dropWhile isPyWs).reverse

/-- Python `str.strip()`. -/
def pyStrip (s : String) : String := ⟨pyStripList s.data⟩

/-- `listPrefixEq pat l` holds iff `pat` is an initial segment of `l`. -/
def listPrefixEq : List Char → List Char → Bool
  | [], _ => true
  | _ :: _, [] => false
  | a :: as, b :: bs => a = b && listPrefixEq as bs

/-- `listHasSub pat l` is Python's substring test `pat in l`. -/
def listHasSub (pat : List Char) : List Char → Bool
  | [] => listPrefixEq pat []
  | c :: t => listPrefixEq pat (c :: t) || listHasSub pat t

/-- Python `pat in lab` on strings. -/
def strHasSub (pat lab : String) : Bool := listHasSub pat.data lab.data

/-- Python `s.startswith(pre)`. -/
def pyStartswith (s pre : String) : Bool := listPrefixEq pre.data s.data

/-- Collapse every maximal run of whitespace into a single space,
Python `re.sub(r"\s+", " ", s)`, via a previous-was-whitespace flag. -/
def collapseWsAux (prevWs : Bool) : List Char → List Char
  | [] => []
  | c :: rest =>
    if isPyWs c then
      if prevWs then collapseWsAux true rest
      else ' ' :: collapseWsAux true rest
    else c :: collapseWsAux false rest

/-- Python `re.sub(r"\s+", " ", s)` on a character list. -/
def collapseWs (l : List Char) : List Char := collapseWsAux false l

/-! ## Field normalizer: `parse_amount_eur` (scraper_playwright.py lines 14-25) -/

/-- The three `replace(..., "")` calls of `parse_amount_eur` line 18:
drop every `'€'`, non-breaking space and ordinary space. -/
def removeCurrencyChars (l : List Char) : List Char :=
  l.filter (fun c => !(c = '€' || c = ' ' || c = ' '))

/-- Line 19 of the source: `txt.replace(",", ".")`, decimal comma to dot. -/
def commaToDot (c : Char) : Char := if c = ',' then '.' else c

/-- The lookahead `\d{3}(\D|$)` of the thousands-separator regex on line 21:
the next three characters are digits and the fourth (if any) is not. -/
def sepLookahead : List Char → Bool
  | d1 :: d2 :: d3 :: rest =>
    d1.isDigit && d2.isDigit && d3.isDigit &&
      (match rest with
       | [] => true
       | c :: _ => !c.isDigit)
  | _ => false

/-- Line 21 of the source, `re.sub(r"(?<=\d)[.,](?=\d{3}(\D|$))", "", txt)`:
delete each `.` or `,` whose previous character in the original string is a
digit and whose lookahead matches `\d{3}(\D|$)`.  `prev` is the character of
the original string just before the current position (lookbehind context). -/
def removeThousandsSeps (prev : Option Char) : List Char → List Char
  | [] => []
  | c :: rest =>
    if (c = '.' || c = ',') &&
        (match prev with
         | some p => p.isDigit
         | none => false) &&
        sepLookahead rest then
      removeThousandsSeps (some c) rest
    else c :: removeThousandsSeps (some c) rest

/-- Numeric value of a digit string, most significant first. -/
def digitsVal (l : List Char) : Nat :=
  l.foldl (fun a c => a * 10 + (c.toNat - 48)) 0

/-- Unsigned part of Python `float(txt)` on the decimal fragment
`digits [ "." digits ]` (digits required on at least one side of the dot).
The result is the exact rational value of the decimal numeral
`ip.fp`, written as `(ip * 10^|fp| + fp) / 10^|fp|`. -/
def parseUnsigned (l : List Char) : Option ℚ :=
  let ip := l.takeWhile Char.isDigit
  let rest := l.dropWhile Char.isDigit
  match rest with
  | [] => if ip.isEmpty then none else some (mkRat (digitsVal ip) 1)
  | '.' :: fr =>
    let fp := fr.takeWhile Char.isDigit
    let rest2 := fr.dropWhile Char.isDigit
    if rest2.isEmpty && !(ip.isEmpty && fp.isEmpty) then
      some (mkRat (digitsVal ip * 10 ^ fp.length + digitsVal fp) (10 ^ fp.length))
    else none
  | _ => none

/-- Model of Python's `float(txt)` on the fragment reachable from
`parse_amount_eur`: optional surrounding whitespace, optional sign, then a
plain decimal numeral; every other input raises `ValueError` (here: `none`).
Exponents, `inf`/`nan` and digit-group underscores are outside the fragment
exercised by this code path and are not modelled. -/
def parsePyFloatList (l : List Char) : Option ℚ :=
  match pyStripList l with
  | '-' :: r => (parseUnsigned r).map (fun q => -q)
  | '+' :: r => parseUnsigned r
  | l2 => parseUnsigned l2

/-- `parse_amount_eur` (scraper_playwright.py lines 14-25): `None` on falsy
input, else strip, drop `€`/NBSP/space, comma→dot, delete thousands
separators, and parse as a float (`None` on `ValueError`). -/
def parse_amount_eur (raw : String) : Option ℚ :=
  if raw = "" then none
  else
    parsePyFloatList
      (removeThousandsSeps none
        ((removeCurrencyChars (pyStripList raw.data)).map commaToDot))

/-! ## Field normalizer: `absolute_url` (scraper_playwright.py lines 35-41) -/

/-- Module constant `BASE_URL` of scraper_playwright.py line 10. -/
def BASE_URL : String := "https://www.enforcementtracker.com"

/-- Python `s.rstrip('/')`. -/
def rstripSlash (s : String) : String :=
  ⟨(s.data.reverse.dropWhile (fun c => c = '/')).reverse⟩

/-- Python `s.lstrip('/')`. -/
def lstripSlash (s : String) : String :=
  ⟨s.data.dropWhile (fun c => c = '/')⟩

/-- `absolute_url` (scraper_playwright.py lines 35-41): `None` for falsy
input; strip; inputs starting with `"http"` are returned unchanged; all
others are joined to `BASE_URL` with single-slash normalization at the
join point. -/
def absolute_url : Option String → Option String
  | none => none
  | some h =>
    if h = "" then none
    else
      let h2 := pyStrip h
      if pyStartswith h2 "http" then some h2
      else some (rstripSlash BASE_URL ++ "/" ++ lstripSlash h2)

/-- Modelled from the claim's wording for C7 only: whether a string begins
with an RFC 3986 scheme (`ALPHA *( ALPHA / DIGIT / "+" / "-" / "." ) ":"`).
This is the claim's notion of "already has a scheme", to be compared with
the source's `startswith("http")` test. -/
def isSchemeChar (c : Char) : Bool :=
  c.isAlphanum || c = '+' || c = '-' || c = '.'

/-- Modelled from the claim's wording for C7: `hasScheme s` holds iff `s`
is of the form `scheme ":" rest`. -/
def hasScheme (s : String) : Bool :=
  match s.data with
  | [] => false
  | c :: rest =>
    c.isAlpha &&
      (match rest.dropWhile isSchemeChar with
       | ':' :: _ => true
       | _ => false)

/-! ## Header resolver: `build_header_map` (scraper_playwright.py lines 174-209) -/

/-- The fixed set of logical header keys (the keys of the `keys` dict in
`build_header_map`). -/
inductive HKey where
  | etid
  | country
  | date
  | fine
  | controller
  | quoted
  | type
  | source
deriving DecidableEq

/-- The candidate-substring lists of the `keys` dict in `build_header_map`
(scraper_playwright.py lines 179-188). -/
def patternsFor : HKey → List String
  | .etid => ["etid"]
  | .country => ["country"]
  | .date => ["date of decision", "decision date", "date"]
  | .fine => ["fine"]
  | .controller => ["controller", "processor", "controller/processor"]
  | .quoted => ["quoted art", "article"]
  | .type => ["type"]
  | .source => ["source"]

/-- Iteration order of the `keys` dict (Python dict insertion order). -/
def keyOrder : List HKey :=
  [.etid, .country, .date, .fine, .controller, .quoted, .type, .source]

/-- The header map built by `build_header_map`: one optional column index per
logical key (`None` when unmatched). -/
structure HeaderMap where
  etid : Option Nat
  country : Option Nat
  date : Option Nat
  fine : Option Nat
  controller : Option Nat
  quoted : Option Nat
  type : Option Nat
  source : Option Nat
deriving DecidableEq

/-- `header_map = {k: None for k in keys}` (line 200). -/
def emptyHeaderMap : HeaderMap :=
  ⟨none, none, none, none, none, none, none, none⟩

/-- Field lookup of the header map by logical key. -/
def getKey (m : HeaderMap) : HKey → Option Nat
  | .etid => m.etid
  | .country => m.country
  | .date => m.date
  | .fine => m.fine
  | .controller => m.controller
  | .quoted => m.quoted
  | .type => m.type
  | .source => m.source

/-- `header_map[key] = idx` (line 205): unconditional assignment. -/
def setKey (m : HeaderMap) (k : HKey) (i : Nat) : HeaderMap :=
  match k with
  | .etid => { m with etid := some i }
  | .country => { m with country := some i }
  | .date => { m with date := some i }
  | .fine => { m with fine := some i }
  | .controller => { m with controller := some i }
  | .quoted => { m with quoted := some i }
  | .type => { m with type := some i }
  | .source => { m with source := some i }

/-- Header-text normalization of lines 192-195: strip, lower-case, fold `€`
to `e`, collapse whitespace. -/
def normHeader (s : String) : String :=
  ⟨collapseWs ((pyStripList s.data).map
      (fun c => if c = '€' then 'e' else c.toLower))⟩

/-- The inner loop of lines 202-206: the first key in dict order whose
candidate patterns occur in the (already normalized) label; `none` when no
key matches (the label is skipped). -/
def firstKeyFor (lab : String) : Option HKey :=
  keyOrder.findSome? (fun k =>
    if (patternsFor k).any (fun p => strHasSub p lab) then some k else none)

/-- One step of the `for idx, lab in enumerate(labels)` loop (lines 202-206):
assign index `i` to the first matching key, if any. -/
def assignLabel (m : HeaderMap) (i : Nat) (lab : String) : HeaderMap :=
  match firstKeyFor lab with
  | some k => setKey m k i
  | none => m

/-- The enumerate loop of lines 202-206 over already-normalized labels,
starting at index `i`. -/
def buildFrom (m : HeaderMap) (i : Nat) : List String → HeaderMap
  | [] => m
  | lab :: rest => buildFrom (assignLabel m i lab) (i + 1) rest

/-- `build_header_map` (scraper_playwright.py lines 174-209) as a function of
the raw `<th>` texts in document order. -/
def build_header_map (labels : List String) : HeaderMap :=
  buildFrom emptyHeaderMap 0 (labels.map normHeader)

/-- Modelled from the claim's wording for C2 only: each key is assigned the
index of the FIRST header cell in document order whose normalized text
contains one of that key's candidate substrings.  To be compared with the
source's `build_header_map`. -/
def headerMapFirstSpec (labels : List String) (k : HKey) : Option Nat :=
  (labels.map normHeader).findIdx?
    (fun lab => (patternsFor k).any (fun p => strHasSub p lab))

/-- Characterization used by the amended C2: the last index of the
(already-normalized) label list whose first matching key is `k`. -/
def lastSelectIdx (k : HKey) : List String → Option Nat
  | [] => none
  | lab :: rest =>
    match lastSelectIdx k rest with
    | some j => some (j + 1)
    | none => if firstKeyFor lab = some k then some 0 else none

/-! ## Data model: records and the sqlite store (db.py, scraper lines 45-75)

Python `None` is embedded as `none` (SQL NULL).  The scraper always passes
plain (possibly empty) strings for `country`, `controller_or_processor`,
`quoted_articles` and `type`, so those fields are `String`; `authority` and
`summary` are also always strings in `run`, but `upsert_rows` accepts any
value, and SQL `COALESCE` only reacts to NULL, so they are `Option String`
here; `decision_date`, `amount_eur`, `source_url` and `direct_url` can be
Python `None`. -/

/-- The non-key columns of one record handed to `upsert_rows`. -/
structure FineFields where
  country : String
  authority : Option String
  decision_date : Option String
  amount_eur : Option ℚ
  controller_or_processor : String
  quoted_articles : String
  type : String
  summary : Option String
  source_url : Option String
  direct_url : Option String
deriving DecidableEq

/-- One element of the `rows` batch passed to `upsert_rows`. -/
structure FineRow where
  etid : String
  fields : FineFields
deriving DecidableEq

/-- One row of the `fines` table (db.py lines 8-21), keyed by `etid`. -/
structure StoredFine where
  etid : String
  fields : FineFields
  scraped_at : String
deriving DecidableEq

/-- The `fines` table as an association list keyed by `etid`
(`etid TEXT PRIMARY KEY`). -/
abbrev Store := List StoredFine

/-- `SELECT * FROM fines WHERE etid = k` (first match). -/
def lookupFine (s : Store) (k : String) : Option StoredFine :=
  List.find? (fun x => x.etid == k) s

/-- SQL `COALESCE(a, b)`: the first non-NULL argument. -/
def coalesce (a b : Option String) : Option String :=
  match a with
  | some v => some v
  | none => b

/-- The `ON CONFLICT(etid) DO UPDATE SET` clause of `upsert_rows`
(scraper_playwright.py lines 56-67): `country`, `decision_date`,
`amount_eur`, `controller_or_processor`, `quoted_articles`, `type` and
`scraped_at` are overwritten unconditionally; `authority`, `summary`,
`source_url` and `direct_url` go through `COALESCE(excluded.x, fines.x)`. -/
def mergeFine (t : String) (old : StoredFine) (new : FineRow) : StoredFine :=
  { etid := old.etid
    fields :=
      { country := new.fields.country
        authority := coalesce new.fields.authority old.fields.authority
        decision_date := new.fields.decision_date
        amount_eur := new.fields.amount_eur
        controller_or_processor := new.fields.controller_or_processor
        quoted_articles := new.fields.quoted_articles
        type := new.fields.type
        summary := coalesce new.fields.summary old.fields.summary
        source_url := coalesce new.fields.source_url old.fields.source_url
        direct_url := coalesce new.fields.direct_url old.fields.direct_url }
    scraped_at := t }

/-- One `con.execute(INSERT ... ON CONFLICT(etid) DO UPDATE ...)` call
(scraper_playwright.py lines 49-74): update the existing row with the same
`etid`, or append a fresh row. -/
def applyRow (t : String) (s : Store) (r : FineRow) : Store :=
  if s.any (fun x => x.etid == r.etid) then
    s.map (fun x => if x.etid == r.etid then mergeFine t x r else x)
  else s ++ [⟨r.etid, r.fields, t⟩]

/-- The `for r in rows: con.execute(...)` loop inside the open transaction:
Python sqlite3 implicitly opens one transaction before the first `INSERT`
and keeps it open until `con.commit()`.  A raising `execute` is modelled by
the failure oracle `fail`; it aborts the loop with `none` (the exception
propagates). -/
def execRows (fail : FineRow → Bool) (t : String) (s : Store) :
    List FineRow → Option Store
  | [] => some s
  | r :: rest =>
    if fail r then none else execRows fail t (applyRow t s r) rest

/-- `upsert_rows` (scraper_playwright.py lines 45-75) with the transaction
semantics of `db.connect` (db.py lines 27-34): on success `con.commit()`
makes every per-row write durable; on an exception `connect`'s `finally`
closes the connection without committing, which discards the open
transaction, leaving the store as it was before the call.  `t` is the
`scraped_at` timestamp taken at entry; `fail` says which individual record
writes raise. -/
def upsert_rows (fail : FineRow → Bool) (t : String) (s : Store)
    (rows : List FineRow) : Store :=
  match execRows fail t s rows with
  | some s2 => s2
  | none => s

/-- Failure oracle for runs where every write succeeds. -/
def noFail : FineRow → Bool := fun _ => false

/-- Failure oracle for runs where every write raises. -/
def alwaysFail : FineRow → Bool := fun _ => true

/-! ## Row scan, key resolution and dedup (run, scraper lines 242-339) -/

/-- `safe_text("etid") or kv.get("etid") or ""` (line 302): first truthy of
the primary-row cell text, the detail-bag value, and `""`. -/
def resolveKey (mainTxt : String) (kvVal : Option String) : String :=
  if mainTxt ≠ "" then mainTxt
  else
    match kvVal with
    | some v => if v ≠ "" then v else ""
    | none => ""

/-- One scanned primary row (with its optional detail-bag key), as assembled
by lines 301-337 just before the dedup check. -/
structure ScanRow where
  etidMain : String
  etidKv : Option String
  fields : FineFields
deriving DecidableEq

/-- The row's resolved key `etid_txt` (line 302). -/
def ScanRow.key (r : ScanRow) : String := resolveKey r.etidMain r.etidKv

/-- The record appended to the batch for this row (lines 325-337). -/
def ScanRow.toRow (r : ScanRow) : FineRow := ⟨r.key, r.fields⟩

/-- The dedup filter of lines 323-337 over one page's scanned rows:
`if etid_txt and etid_txt not in seen: seen.add(etid_txt);
batch.append(...)`.  `seen` is the run-wide set (modelled as a list);
returns the page's batch together with the updated `seen`. -/
def dedupScan (seen : List String) : List ScanRow → List FineRow × List String
  | [] => ([], seen)
  | r :: rest =>
    if r.key ≠ "" ∧ r.key ∉ seen then
      ((r.toRow) :: (dedupScan (r.key :: seen) rest).1,
        (dedupScan (r.key :: seen) rest).2)
    else dedupScan seen rest

/-- The page loop of `run` restricted to batch construction: `seen` is
created once before the loop (line 243) and threaded through every page;
each page contributes the batch that is handed to `upsert_rows`
(lines 341-344). -/
def runPages (seen : List String) : List (List ScanRow) → List (List FineRow)
  | [] => []
  | pg :: rest =>
    (dedupScan seen pg).1 :: runPages (dedupScan seen pg).2 rest

/-! ## Pagination advance (run, scraper lines 346-366) -/

/-- What the environment shows for one "next page" candidate selector:
whether `btn.count() > 0 and btn.first.is_visible()` holds, the pre-click
first-row text `first_before` (line 351), and the successive first-row
observations of the poll loop (`none` models `count() == 0`). -/
structure SelObs where
  visible : Bool
  before : String
  polls : List (Option String)
deriving DecidableEq

/-- The poll loop of lines 354-362: up to the given observations, skip
empty row sets, and report movement at the first observation different
from the pre-click text. -/
def pollMoved (before : String) : List (Option String) → Bool
  | [] => false
  | none :: rest => pollMoved before rest
  | some t :: rest => if t ≠ before then true else pollMoved before rest

/-- The `for s in [...]` selector loop of lines 348-364: `moved` becomes
true iff some visible candidate's bounded poll (20 attempts, line 354)
observes a changed first row. -/
def tryAdvance (sels : List SelObs) : Bool :=
  sels.any (fun s => s.visible && pollMoved s.before (s.polls.take 20))

/-- Python truthiness of `max_pages and page_index >= max_pages`
(line 365): `None` and `0` are falsy. -/
def capReached (i : Nat) : Option Nat → Bool
  | none => false
  | some m => decide (0 < m) && decide (m ≤ i)

/-- The loop-exit decision of line 365: the `while True` page loop runs
another iteration iff the page moved and the page cap is not reached. -/
def loopContinues (sels : List SelObs) (i : Nat) (mp : Option Nat) : Bool :=
  tryAdvance sels && !(capReached i mp)

/-! ## Concrete records used by witnesses and counterexamples -/

/-- A record as the scraper would assemble it on a first visit:
authority extracted (`"LDA"`), country `"Germany"`. -/
def recFirst : FineRow :=
  ⟨"DE-001", ⟨"Germany", some "LDA", none, none, "", "", "", some "", none, none⟩⟩

/-- A second-visit record for the same key whose authority extraction came
back empty: the scraper then passes the empty string (line 313), not NULL,
and a new non-empty country. -/
def recSecondEmptyAuth : FineRow :=
  ⟨"DE-001", ⟨"France", some "", none, none, "", "", "", some "", none, none⟩⟩

/-- A second-visit record for the same key with NULL (absent) authority and
a new non-empty country. -/
def recSecondNullAuth : FineRow :=
  ⟨"DE-001", ⟨"France", none, none, none, "", "", "", none, none, none⟩⟩

/-- All-empty non-key fields. -/
def blankFields : FineFields :=
  ⟨"", none, none, none, "", "", "", none, none, none⟩

/-- A scanned row with key `"X-1"`. -/
def scanX : ScanRow := ⟨"X-1", none, blankFields⟩

/-- A second scanned row with the same key `"X-1"` but different payload. -/
def scanXdup : ScanRow :=
  ⟨"X-1", none, ⟨"Austria", none, none, none, "", "", "", none, none, none⟩⟩

/-- A scanned row with key `"Y-1"`. -/
def scanY : ScanRow := ⟨"Y-1", none, blankFields⟩

/-- A scanned row whose key resolves to the empty string. -/
def scanNoKey : ScanRow := ⟨"", none, blankFields⟩

/-- A "next page" candidate that is absent or invisible. -/
def selHidden : SelObs := ⟨false, "row1", [some "row2"]⟩

/-- A visible "next page" candidate whose polls never observe a change. -/
def selStuck : SelObs := ⟨true, "row1", [none, some "row1", some "row1"]⟩

/-- A visible "next page" candidate that does observe a change. -/
def selMoving : SelObs := ⟨true, "row1", [some "row2"]⟩

/-! ## Shared helper lemmas -/

/-- Stripping surrounding whitespace only removes characters. -/
theorem pyStripList_subset (l : List Char) : pyStripList l ⊆ l := by
  intro a ha
  unfold pyStripList at ha
  rw [List.mem_reverse] at ha
  have h2 := (List.dropWhile_sublist isPyWs).subset ha
  rw [List.mem_reverse] at h2
  exact (List.dropWhile_sublist isPyWs).subset h2

/-- The thousands-separator pass only deletes characters. -/
theorem removeThousandsSeps_sublist (p : Option Char) (l : List Char) :
    List.Sublist (removeThousandsSeps p l) l := by
  induction l generalizing p with
  | nil => simp [removeThousandsSeps]
  | cons c rest ih =>
    unfold removeThousandsSeps
    split
    · exact List.Sublist.cons c (ih (some c))
    · exact List.Sublist.cons₂ c (ih (some c))

/-- The comma-to-dot pass never produces a minus sign. -/
theorem map_commaToDot_no_minus {l : List Char} (h : '-' ∉ l) :
    '-' ∉ l.map commaToDot := by
  intro hm
  rcases List.mem_map.mp hm with ⟨a, ha, hq⟩
  unfold commaToDot at hq
  split at hq
  · exact absurd hq (by decide)
  · exact h (hq ▸ ha)

/-- A successfully parsed unsigned decimal numeral is non-negative. -/
theorem parseUnsigned_nonneg {l : List Char} {q : ℚ}
    (h : parseUnsigned l = some q) : 0 ≤ q := by
  simp only [parseUnsigned] at h
  split at h
  · split at h
    · exact absurd h (by simp)
    · cases h
      exact Rat.mkRat_nonneg (Int.natCast_nonneg _) _
  · split at h
    · cases h
      refine Rat.mkRat_nonneg ?_ _
      positivity
    · exact absurd h (by simp)
  · exact absurd h (by simp)

/-- A parsed float over a minus-free string is non-negative. -/
theorem parsePyFloatList_nonneg {l : List Char} {q : ℚ} (hm : '-' ∉ l)
    (h : parsePyFloatList l = some q) : 0 ≤ q := by
  have hs : '-' ∉ pyStripList l := fun hx => hm (pyStripList_subset l hx)
  unfold parsePyFloatList at h
  split at h
  · next r heq => exact absurd (heq ▸ List.mem_cons_self '-' r) hs
  · exact parseUnsigned_nonneg h
  · exact parseUnsigned_nonneg h

/-- The leading-slash strip leaves no leading slash. -/
theorem dropWhile_slash_head (l : List Char) :
    listPrefixEq ['/'] (l.dropWhile (fun c => c = '/')) = false := by
  induction l with
  | nil => rfl
  | cons c rest ih =>
    by_cases hc : c = '/'
    · simpa [List.dropWhile, hc] using ih
    · simp [List.dropWhile, hc, listPrefixEq]
      exact fun hh => absurd hh.symm hc

/-- String-level form of `dropWhile_slash_head`. -/
theorem pyStartswith_lstripSlash (s : String) :
    pyStartswith (lstripSlash s) "/" = false := by
  unfold pyStartswith lstripSlash
  show listPrefixEq "/".data (s.data.dropWhile (fun c => c = '/')) = false
  have hd : "/".data = ['/'] := rfl
  rw [hd]
  exact dropWhile_slash_head _

/-! ## Claim theorems -/

/-- Claim C5: the amount normalizer satisfies
`parse_amount_eur "1.234,56 €" = 1234.56`, `parse_amount_eur "42" = 42.0`,
and `parse_amount_eur ""` and `parse_amount_eur "not a number"` are both
absent, following the source's algorithm (strip, currency/space removal,
decimal comma to dot, thousands-separator deletion, float parse with
absent on failure). -/
theorem C5_amount_normalizer :
    parse_amount_eur "1.234,56 €" = some (1234.56 : ℚ) ∧
    parse_amount_eur "42" = some (42.0 : ℚ) ∧
    parse_amount_eur "" = none ∧
    parse_amount_eur "not a number" = none := by
  refine ⟨?_, ?_, by decide, by decide⟩
  · have h : parse_amount_eur "1.234,56 €" = some (mkRat 123456 100) := by decide
    rw [h]
    exact congrArg some (by rw [Rat.mkRat_eq_div]; norm_num)
  · have h : parse_amount_eur "42" = some (mkRat 42 1) := by decide
    rw [h]
    exact congrArg some (by rw [Rat.mkRat_eq_div]; norm_num)

/-- Claim C6, counterexample: `parse_amount_eur` applied to the concrete
input `"-5"` yields the negative value -5, refuting "parse_amount_eur never
yields a negative number". -/
theorem C6_counterexample :
    parse_amount_eur "-5" = some (-(mkRat 5 1)) ∧ (-(mkRat 5 1) : ℚ) < 0 := by
  decide

/-- Claim C6 as amended: the value placed on a record by `parse_amount_eur`
is either absent or a rational; it is negative only when the raw text
contains a minus sign — for every input without a `'-'` character the
result, when present, is non-negative. -/
theorem C6_amended (s : String) (q : ℚ) (hm : '-' ∉ s.data)
    (h : parse_amount_eur s = some q) : 0 ≤ q := by
  unfold parse_amount_eur at h
  split at h
  · exact absurd h (by simp)
  · have no1 : '-' ∉ pyStripList s.data :=
      fun hx => hm (pyStripList_subset _ hx)
    have no2 : '-' ∉ removeCurrencyChars (pyStripList s.data) :=
      fun hx => no1 (List.filter_subset' _ hx)
    have no3 : '-' ∉ (removeCurrencyChars (pyStripList s.data)).map commaToDot :=
      map_commaToDot_no_minus no2
    have no4 :
        '-' ∉ removeThousandsSeps none
            ((removeCurrencyChars (pyStripList s.data)).map commaToDot) :=
      fun hx => no3 ((removeThousandsSeps_sublist none _).subset hx)
    exact parsePyFloatList_nonneg no4 h

/-- Claim C6 witness: the theorem applied at input `"42"`. -/
theorem C6_amended_witness : 0 ≤ (mkRat 42 1 : ℚ) :=
  C6_amended "42" (mkRat 42 1) (by decide) (by decide)

/-- Claim C7, counterexample: `"ftp://x/y"` has a scheme but is not
returned unchanged — it is joined against the base, refuting "returns any
input that already has a scheme unchanged". -/
theorem C7_counterexample :
    hasScheme "ftp://x/y" = true ∧
    absolute_url (some "ftp://x/y") =
      some "https://www.enforcementtracker.com/ftp://x/y" ∧
    some "https://www.enforcementtracker.com/ftp://x/y" ≠ some "ftp://x/y" := by
  decide

/-- Claim C7 as amended: `absolute_url` returns unchanged (after stripping)
exactly the non-empty inputs whose stripped text starts with the literal
`"http"` — not those with an arbitrary scheme — and joins every other
non-empty input against the fixed site base with single-slash normalization
at the join point; in particular the two examples of the claim hold. -/
theorem C7_amended :
    absolute_url (some "/etid-123") = some (BASE_URL ++ "/etid-123") ∧
    absolute_url (some "https://x/y") = some "https://x/y" ∧
    (∀ h : String, h ≠ "" → pyStartswith (pyStrip h) "http" = true →
        absolute_url (some h) = some (pyStrip h)) ∧
    (∀ h : String, h ≠ "" → pyStartswith (pyStrip h) "http" = false →
        absolute_url (some h) =
          some (rstripSlash BASE_URL ++ "/" ++ lstripSlash (pyStrip h)) ∧
        pyStartswith (lstripSlash (pyStrip h)) "/" = false ∧
        rstripSlash BASE_URL = BASE_URL) := by
  refine ⟨by decide, by decide, ?_, ?_⟩
  · intro h hne hs
    simp [absolute_url, hne, hs]
  · intro h hne hs
    exact ⟨by simp [absolute_url, hne, hs], pyStartswith_lstripSlash _, by decide⟩

/-- Claim C7 witness: the amended theorem applied at the concrete inputs
`" https://a "` (http case) and `"x"` (join case). -/
theorem C7_amended_witness :
    absolute_url (some " https://a ") = some (pyStrip " https://a ") ∧
    (absolute_url (some "x") =
        some (rstripSlash BASE_URL ++ "/" ++ lstripSlash (pyStrip "x")) ∧
      pyStartswith (lstripSlash (pyStrip "x")) "/" = false ∧
      rstripSlash BASE_URL = BASE_URL) :=
  ⟨C7_amended.2.2.1 " https://a " (by decide) (by decide),
   C7_amended.2.2.2 "x" (by decide) (by decide)⟩

/-- The empty header map has no assignment. -/
theorem getKey_empty (k : HKey) : getKey emptyHeaderMap k = none := by
  cases k <;> rfl

/-- Reading back the key just assigned. -/
theorem getKey_setKey_same (m : HeaderMap) (k : HKey) (i : Nat) :
    getKey (setKey m k i) k = some i := by
  cases k <;> rfl

/-- Assigning one key leaves the others unchanged. -/
theorem getKey_setKey_other (m : HeaderMap) (k k' : HKey) (i : Nat)
    (h : k' ≠ k) : getKey (setKey m k' i) k = getKey m k := by
  cases k <;> cases k' <;> first | rfl | exact absurd rfl h

/-- The enumerate loop assigns each key the last index that selects it,
relative to the starting offset `i`; keys selected by no label keep their
entry value. -/
theorem getKey_buildFrom (L : List String) (m : HeaderMap) (i : Nat)
    (k : HKey) :
    getKey (buildFrom m i L) k =
      Option.elim (lastSelectIdx k L) (getKey m k) (fun j => some (i + j)) := by
  induction L generalizing m i with
  | nil => rfl
  | cons lab rest ih =>
    show getKey (buildFrom (assignLabel m i lab) (i + 1) rest) k = _
    rw [ih]
    rcases hrest : lastSelectIdx k rest with _ | j
    · rcases hlab : firstKeyFor lab with _ | k0
      · simp [lastSelectIdx, hrest, hlab, assignLabel]
      · by_cases hk : k0 = k
        · subst hk
          simp [lastSelectIdx, hrest, hlab, assignLabel, getKey_setKey_same]
        · simp [lastSelectIdx, hrest, hlab, assignLabel, hk,
            getKey_setKey_other m k k0 i hk]
    · simp only [lastSelectIdx, hrest, Option.elim]
      exact congrArg some (by omega)

/-- Claim C2, counterexample: with the concrete header row
`["Country", "Country"]` the code assigns `country` the LAST matching
column index 1, while the claim mandates the first matching header cell,
index 0. -/
theorem C2_counterexample :
    (build_header_map ["Country", "Country"]).country = some 1 ∧
    headerMapFirstSpec ["Country", "Country"] HKey.country = some 0 ∧
    (some 1 : Option Nat) ≠ some 0 := by
  decide

/-- Claim C2 as amended: `build_header_map` assigns to each logical key the
column index of the LAST header cell in document order that selects it,
where a cell selects the first key in the fixed order (etid, country, date,
fine, controller, quoted, type, source) whose candidate substrings occur in
the cell's normalized text (each cell selects at most one key, and a later
matching cell overwrites an earlier assignment); keys selected by no cell
map to absent. -/
theorem C2_amended (labels : List String) (k : HKey) :
    getKey (build_header_map labels) k =
      lastSelectIdx k (labels.map normHeader) := by
  unfold build_header_map
  rw [getKey_buildFrom]
  rcases h : lastSelectIdx k (labels.map normHeader) with _ | j
  · simp [getKey_empty]
  · simp

/-- `find?` over the conflict-update map: the first row with the matching
key is replaced by its merge. -/
theorem find?_map_merge (t : String) (r : FineRow) (s : Store)
    (o : StoredFine)
    (h : List.find? (fun x => x.etid == r.etid) s = some o) :
    List.find? (fun x => x.etid == r.etid)
        (s.map (fun x => if x.etid == r.etid then mergeFine t x r else x)) =
      some (mergeFine t o r) := by
  induction s with
  | nil => simp at h
  | cons x rest ih =>
    by_cases hx : (x.etid == r.etid) = true
    · simp only [List.find?_cons, hx, cond_true] at h
      cases h
      simp only [List.map_cons, if_pos hx]
      have hx2 : ((mergeFine t o r).etid == r.etid) = true := hx
      simp only [List.find?_cons, hx2, cond_true]
    · simp only [List.find?_cons, hx, Bool.false_eq_true, cond_false] at h
      simp only [List.map_cons, if_neg hx]
      have hx2 : ((x : StoredFine).etid == r.etid) = false := by
        cases hb : (x.etid == r.etid)
        · rfl
        · exact absurd hb hx
      simp only [List.find?_cons, hx2, cond_false]
      exact ih h

/-- One conflict-update `execute` on a key already in the store produces
the merged row at that key. -/
theorem lookupFine_applyRow (t : String) (s : Store) (r : FineRow)
    (o : StoredFine) (h : lookupFine s r.etid = some o) :
    lookupFine (applyRow t s r) r.etid = some (mergeFine t o r) := by
  unfold applyRow
  rw [if_pos (List.any_eq_true.mpr
    ⟨o, List.mem_of_find?_eq_some h, List.find?_some h⟩)]
  exact find?_map_merge t r s o h

/-- The transaction loop with no failing write commits every per-row
update in order. -/
theorem execRows_ok (fail : FineRow → Bool) (t : String) (s : Store)
    (rows : List FineRow) (h : ∀ r ∈ rows, fail r = false) :
    execRows fail t s rows = some (rows.foldl (applyRow t) s) := by
  induction rows generalizing s with
  | nil => rfl
  | cons r rest ih =>
    have hr := h r (List.mem_cons_self r rest)
    simp only [execRows, hr, Bool.false_eq_true, if_false, List.foldl_cons]
    exact ih _ (fun x hx => h x (List.mem_cons_of_mem r hx))

/-- The transaction loop aborts with an exception as soon as any write of
the batch fails. -/
theorem execRows_fail (fail : FineRow → Bool) (t : String) (s : Store)
    (rows : List FineRow) (h : ∃ r ∈ rows, fail r = true) :
    execRows fail t s rows = none := by
  induction rows generalizing s with
  | nil => simp at h
  | cons r rest ih =>
    by_cases hr : fail r = true
    · simp [execRows, hr]
    · rcases h with ⟨x, hx, hfx⟩
      rcases List.mem_cons.mp hx with rfl | hx2
      · exact absurd hfx hr
      · have hr' : fail r = false := by
          cases hfr : fail r
          · rfl
          · exact absurd hfr hr
        simp only [execRows, hr', Bool.false_eq_true, if_false]
        exact ih _ ⟨x, hx2, hfx⟩

/-- Claim C8: `upsert_rows` applies one page's batch atomically — with no
failing write the final store is the fold of all per-record merges, and
with any failing record write the store is exactly the one from before the
call (the open sqlite transaction is discarded by `close` without
`commit`). -/
theorem C8_atomic_upsert (fail : FineRow → Bool) (t : String) (s : Store)
    (rows : List FineRow) :
    ((∀ r ∈ rows, fail r = false) →
        upsert_rows fail t s rows = rows.foldl (applyRow t) s) ∧
    ((∃ r ∈ rows, fail r = true) → upsert_rows fail t s rows = s) := by
  constructor
  · intro h
    unfold upsert_rows
    rw [execRows_ok fail t s rows h]
  · intro h
    unfold upsert_rows
    rw [execRows_fail fail t s rows h]

/-- Claim C8 witness: the theorem applied to a succeeding one-record batch
and to a failing one-record batch over a non-empty store. -/
theorem C8_atomic_upsert_witness :
    upsert_rows noFail "t1" [] [recFirst] =
      [recFirst].foldl (applyRow "t1") [] ∧
    upsert_rows alwaysFail "t1" [⟨"A", blankFields, "t0"⟩] [recFirst] =
      [⟨"A", blankFields, "t0"⟩] :=
  ⟨(C8_atomic_upsert noFail "t1" [] [recFirst]).1 (by decide),
   (C8_atomic_upsert alwaysFail "t1" [⟨"A", blankFields, "t0"⟩] [recFirst]).2
     (by decide)⟩

/-- Claim C1, counterexample: upserting key `"DE-001"` twice, the second
time with EMPTY-STRING authority (exactly what the scraper passes when
extraction finds nothing) and new country `"France"`, stores the empty
authority — SQL `COALESCE` retains the old value only on NULL, not on the
empty string — refuting "authority is overwritten only if the new value is
non-empty". -/
theorem C1_counterexample :
    lookupFine
        (upsert_rows noFail "t2"
          (upsert_rows noFail "t1" [] [recFirst]) [recSecondEmptyAuth])
        "DE-001" =
      some ⟨"DE-001",
        ⟨"France", some "", none, none, "", "", "", some "", none, none⟩,
        "t2"⟩ ∧
    (some "" : Option String) ≠ some "LDA" := by
  decide

/-- Claim C1 as amended: on an upsert for a key already present,
`country`, `decision_date`, `amount_eur`, `controller_or_processor`,
`quoted_articles`, `type` and `scraped_at` are overwritten unconditionally,
while `authority`, `summary`, `source_url` and `direct_url` are overwritten
whenever the new value is present (non-NULL) — an empty string is present
and overwrites — and retained only when the new value is NULL/absent. -/
theorem C1_merge_policy (t : String) (s : Store) (r : FineRow)
    (o : StoredFine) (h : lookupFine s r.etid = some o) :
    lookupFine (upsert_rows noFail t s [r]) r.etid =
      some { etid := o.etid
             fields :=
               { country := r.fields.country
                 authority := coalesce r.fields.authority o.fields.authority
                 decision_date := r.fields.decision_date
                 amount_eur := r.fields.amount_eur
                 controller_or_processor := r.fields.controller_or_processor
                 quoted_articles := r.fields.quoted_articles
                 type := r.fields.type
                 summary := coalesce r.fields.summary o.fields.summary
                 source_url := coalesce r.fields.source_url o.fields.source_url
                 direct_url := coalesce r.fields.direct_url o.fields.direct_url }
             scraped_at := t } := by
  have hu : upsert_rows noFail t s [r] = applyRow t s r := rfl
  rw [hu]
  exact lookupFine_applyRow t s r o h

/-- Claim C1 witness: the amended theorem applied to a second upsert of key
`"DE-001"` with NULL authority and new country `"France"` — the first
authority `"LDA"` is retained, the second country wins. -/
theorem C1_merge_policy_witness :
    lookupFine
        (upsert_rows noFail "t2"
          (upsert_rows noFail "t1" [] [recFirst]) [recSecondNullAuth])
        "DE-001" =
      some ⟨"DE-001",
        ⟨"France", some "LDA", none, none, "", "", "", some "", none, none⟩,
        "t2"⟩ :=
  C1_merge_policy "t2" (upsert_rows noFail "t1" [] [recFirst])
    recSecondNullAuth ⟨"DE-001", recFirst.fields, "t1"⟩ (by decide)

/-- Unfolding equation of `dedupScan` for an accepted row. -/
theorem dedupScan_cons_pos (seen : List String) (x : ScanRow)
    (rest : List ScanRow) (h : x.key ≠ "" ∧ x.key ∉ seen) :
    dedupScan seen (x :: rest) =
      ((x.toRow) :: (dedupScan (x.key :: seen) rest).1,
        (dedupScan (x.key :: seen) rest).2) := by
  simp only [dedupScan]
  rw [if_pos h]

/-- Unfolding equation of `dedupScan` for a dropped row. -/
theorem dedupScan_cons_neg (seen : List String) (x : ScanRow)
    (rest : List ScanRow) (h : ¬(x.key ≠ "" ∧ x.key ∉ seen)) :
    dedupScan seen (x :: rest) = dedupScan seen rest := by
  simp only [dedupScan]
  rw [if_neg h]

/-- A key emitted into a batch was not in `seen` at page entry. -/
theorem dedupScan_fresh (seen : List String) (rows : List ScanRow) :
    ∀ r ∈ (dedupScan seen rows).1, r.etid ∉ seen := by
  induction rows generalizing seen with
  | nil =>
    intro r hr
    simp [dedupScan] at hr
  | cons x rest ih =>
    intro r hr
    by_cases hc : x.key ≠ "" ∧ x.key ∉ seen
    · rw [dedupScan_cons_pos _ _ _ hc] at hr
      rcases List.mem_cons.mp hr with rfl | hr2
      · exact hc.2
      · exact fun hmem =>
          ih (x.key :: seen) r hr2 (List.mem_cons_of_mem _ hmem)
    · rw [dedupScan_cons_neg _ _ _ hc] at hr
      exact ih seen r hr

/-- The `seen` set only grows during a page scan. -/
theorem dedupScan_seen_mono (seen : List String) (rows : List ScanRow) :
    seen ⊆ (dedupScan seen rows).2 := by
  induction rows generalizing seen with
  | nil => exact fun a ha => ha
  | cons x rest ih =>
    by_cases hc : x.key ≠ "" ∧ x.key ∉ seen
    · rw [dedupScan_cons_pos _ _ _ hc]
      exact fun a ha => ih (x.key :: seen) (List.mem_cons_of_mem _ ha)
    · rw [dedupScan_cons_neg _ _ _ hc]
      exact ih seen

/-- Every key emitted into a batch is recorded in the final `seen` set. -/
theorem dedupScan_emitted_mem (seen : List String) (rows : List ScanRow) :
    ∀ r ∈ (dedupScan seen rows).1, r.etid ∈ (dedupScan seen rows).2 := by
  induction rows generalizing seen with
  | nil =>
    intro r hr
    simp [dedupScan] at hr
  | cons x rest ih =>
    intro r hr
    by_cases hc : x.key ≠ "" ∧ x.key ∉ seen
    · rw [dedupScan_cons_pos _ _ _ hc] at hr ⊢
      rcases List.mem_cons.mp hr with rfl | hr2
      · exact dedupScan_seen_mono (x.key :: seen) rest
          (List.mem_cons_self _ _)
      · exact ih (x.key :: seen) r hr2
    · rw [dedupScan_cons_neg _ _ _ hc] at hr ⊢
      exact ih seen r hr

/-- First-occurrence-wins for a key that is fresh at page entry: the batch
contains exactly one record with that key, and it is the one assembled from
the first scanned row carrying it. -/
theorem dedupScan_first_wins (rows : List ScanRow) (seen : List String)
    (k : String) (hk : k ≠ "") (hseen : k ∉ seen)
    (hex : ∃ r ∈ rows, r.key = k) :
    ((dedupScan seen rows).1.countP (fun r => r.etid == k) = 1) ∧
    ((dedupScan seen rows).1.find? (fun r => r.etid == k) =
      (rows.find? (fun r => r.key == k)).map ScanRow.toRow) := by
  induction rows generalizing seen with
  | nil => simp at hex
  | cons x rest ih =>
    by_cases hxk : x.key = k
    · have hcond : x.key ≠ "" ∧ x.key ∉ seen := by
        rw [hxk]
        exact ⟨hk, hseen⟩
      rw [dedupScan_cons_pos _ _ _ hcond]
      have hhead : ((ScanRow.toRow x).etid == k) = true := by
        simp [ScanRow.toRow, hxk]
      have hzero :
          (dedupScan (x.key :: seen) rest).1.countP
            (fun r => r.etid == k) = 0 := by
        apply List.countP_eq_zero.mpr
        intro a ha
        have hfresh := dedupScan_fresh (x.key :: seen) rest a ha
        simp only [beq_iff_eq]
        intro heq
        exact hfresh (heq ▸ hxk ▸ List.mem_cons_self _ _)
      constructor
      · simp [List.countP_cons, hzero, hhead]
      · have hheadrow : (x.key == k) = true := by simp [hxk]
        simp [List.find?_cons, hhead, hheadrow]
    · have hxkb : (x.key == k) = false := by
        simp [hxk]
      have hex' : ∃ r ∈ rest, r.key = k := by
        rcases hex with ⟨r, hr, hrk⟩
        rcases List.mem_cons.mp hr with rfl | hr2
        · exact absurd hrk hxk
        · exact ⟨r, hr2, hrk⟩
      by_cases hc : x.key ≠ "" ∧ x.key ∉ seen
      · rw [dedupScan_cons_pos _ _ _ hc]
        have hseen' : k ∉ x.key :: seen := by
          intro hm
          rcases List.mem_cons.mp hm with rfl | hm2
          · exact hxk rfl
          · exact hseen hm2
        have hheadb : ((ScanRow.toRow x).etid == k) = false := by
          simp [ScanRow.toRow, hxk]
        rcases ih (x.key :: seen) hseen' hex' with ⟨ih1, ih2⟩
        constructor
        · simp [List.countP_cons, hheadb, ih1]
        · simp [List.find?_cons, hheadb, hxkb, ih2]
      · rw [dedupScan_cons_neg _ _ _ hc]
        rcases ih seen hseen hex' with ⟨ih1, ih2⟩
        constructor
        · exact ih1
        · simp [List.find?_cons, hxkb, ih2]

/-- Claim C3, counterexample: in the two-page run
`[[scanX], [scanX, scanXdup]]` the second page contains two scanned rows
with the same non-empty key `"X-1"`, yet — because `seen` survives from the
first page — that page's batch contains ZERO records with the key, not
exactly one. -/
theorem C3_counterexample :
    2 ≤ [scanX, scanXdup].countP (fun r => r.key == "X-1") ∧
    runPages [] [[scanX], [scanX, scanXdup]] =
      [[ScanRow.toRow scanX], []] ∧
    ([] : List FineRow).countP (fun r => r.etid == "X-1") ≠ 1 := by
  decide

/-- Claim C3 as amended: for a key that is not yet in the run-wide `seen`
set when the page scan starts (in particular on the first page, or for any
key new to the run), if two or more scanned rows of one page resolve to
that same non-empty key, the page's batch contains exactly one record with
the key — the one built from the first such row in document order — and the
repeats are dropped without error; a key already seen on an earlier page
yields zero records instead. -/
theorem C3_within_page_dedup (seen : List String) (rows : List ScanRow)
    (k : String) (hk : k ≠ "") (hseen : k ∉ seen)
    (hcnt : 2 ≤ rows.countP (fun r => r.key == k)) :
    ((dedupScan seen rows).1.countP (fun r => r.etid == k) = 1) ∧
    ((dedupScan seen rows).1.find? (fun r => r.etid == k) =
      (rows.find? (fun r => r.key == k)).map ScanRow.toRow) := by
  have hex : ∃ r ∈ rows, r.key = k := by
    have hpos : 0 < rows.countP (fun r => r.key == k) := by omega
    rcases List.countP_pos_iff.mp hpos with ⟨r, hr, hrk⟩
    exact ⟨r, hr, by simpa [beq_iff_eq] using hrk⟩
  exact dedupScan_first_wins rows seen k hk hseen hex

/-- Claim C3 witness: the amended theorem applied to the single-page scan
`[scanX, scanXdup]` with fresh key `"X-1"`. -/
theorem C3_within_page_dedup_witness :
    ((dedupScan [] [scanX, scanXdup]).1.countP
        (fun r => r.etid == "X-1") = 1) ∧
    ((dedupScan [] [scanX, scanXdup]).1.find? (fun r => r.etid == "X-1") =
      (([scanX, scanXdup].find? (fun r => r.key == "X-1")).map
        ScanRow.toRow)) :=
  C3_within_page_dedup [] [scanX, scanXdup] "X-1" (by decide) (by decide)
    (by decide)

/-- Claim C4, counterexample: the key `"X-1"` appears on both pages of the
concrete run `[[scanX], [scanXdup]]`, but the later page's batch is empty —
the occurrence is NOT included again and nothing is upserted for it,
because the `seen` set is created once per run (line 243), refuting
"duplicate-key detection operates only within a single page's batch". -/
theorem C4_counterexample :
    runPages [] [[scanX], [scanXdup]] = [[ScanRow.toRow scanX], []] ∧
    ([] : List FineRow) ≠ [ScanRow.toRow scanXdup] := by
  decide

/-- Batches of a run never contain a key that was already in `seen` when
the run segment started. -/
theorem runPages_fresh (pages : List (List ScanRow)) (seen : List String)
    (j : Nat) (bj : List FineRow)
    (h : (runPages seen pages).get? j = some bj) :
    ∀ r ∈ bj, r.etid ∉ seen := by
  induction pages generalizing seen j with
  | nil => simp [runPages] at h
  | cons pg rest ih =>
    cases j with
    | zero =>
      simp only [runPages, List.get?] at h
      cases h
      exact dedupScan_fresh seen pg
    | succ j0 =>
      simp only [runPages, List.get?] at h
      intro r hr hmem
      exact ih (dedupScan seen pg).2 j0 h r hr
        (dedupScan_seen_mono seen pg hmem)

/-- Claim C4 as amended: duplicate-key suppression operates across the
whole run, not only within one page — any two batches of one run are
disjoint in keys, so a key emitted on an earlier page is dropped from every
later page's batch and is never upserted a second time in the same run. -/
theorem C4_cross_page_dedup (seen : List String)
    (pages : List (List ScanRow)) (i j : Nat) (bi bj : List FineRow)
    (hij : i < j) (hbi : (runPages seen pages).get? i = some bi)
    (hbj : (runPages seen pages).get? j = some bj) :
    ∀ ri ∈ bi, ∀ rj ∈ bj, ri.etid ≠ rj.etid := by
  induction pages generalizing seen i j with
  | nil => simp [runPages] at hbi
  | cons pg rest ih =>
    cases i with
    | zero =>
      simp only [runPages, List.get?] at hbi
      cases hbi
      cases j with
      | zero => omega
      | succ j0 =>
        simp only [runPages, List.get?] at hbj
        intro ri hri rj hrj heq
        exact runPages_fresh rest (dedupScan seen pg).2 j0 bj hbj rj hrj
          (heq ▸ dedupScan_emitted_mem seen pg ri hri)
    | succ i0 =>
      cases j with
      | zero => omega
      | succ j0 =>
        simp only [runPages, List.get?] at hbi hbj
        exact ih (dedupScan seen pg).2 i0 j0 (by omega) hbi hbj

/-- Claim C4 witness: the amended theorem applied to the concrete two-page
run `[[scanX], [scanY]]`. -/
theorem C4_cross_page_dedup_witness :
    (ScanRow.toRow scanX).etid ≠ (ScanRow.toRow scanY).etid :=
  C4_cross_page_dedup [] [[scanX], [scanY]] 0 1
    [ScanRow.toRow scanX] [ScanRow.toRow scanY]
    (by omega) (by decide) (by decide)
    (ScanRow.toRow scanX) (by decide)
    (ScanRow.toRow scanY) (by decide)

/-- Claim C10: every record placed in a batch (and hence handed to
`upsert_rows`) carries a non-empty key, and a scanned row whose resolved
key (primary cell, then detail bag, then `""`) is empty is silently
skipped, producing no record and no error. -/
theorem C10_nonempty_keys :
    (∀ (seen : List String) (rows : List ScanRow),
        ∀ rc ∈ (dedupScan seen rows).1, rc.etid ≠ "") ∧
    (∀ (seen : List String) (r : ScanRow) (rest : List ScanRow),
        r.key = "" → dedupScan seen (r :: rest) = dedupScan seen rest) := by
  constructor
  · intro seen rows
    induction rows generalizing seen with
    | nil =>
      intro rc h
      simp [dedupScan] at h
    | cons x rest ih =>
      intro rc h
      by_cases hc : x.key ≠ "" ∧ x.key ∉ seen
      · rw [dedupScan_cons_pos _ _ _ hc] at h
        rcases List.mem_cons.mp h with rfl | h2
        · exact hc.1
        · exact ih (x.key :: seen) rc h2
      · rw [dedupScan_cons_neg _ _ _ hc] at h
        exact ih seen rc h
  · intro seen r rest hkey
    apply dedupScan_cons_neg
    intro hc
    exact hc.1 hkey

/-- Claim C10 witness: the theorem applied to a concrete batch member and
to a concrete empty-key row. -/
theorem C10_nonempty_keys_witness :
    (ScanRow.toRow scanX).etid ≠ "" ∧
    dedupScan [] [scanNoKey, scanX] = dedupScan [] [scanX] :=
  ⟨C10_nonempty_keys.1 [] [scanX] (ScanRow.toRow scanX) (by decide),
   C10_nonempty_keys.2 [] scanNoKey [scanX] (by decide)⟩

/-- A poll sequence that only ever shows an empty row set or the pre-click
first-row text reports no movement. -/
theorem pollMoved_eq_false (before : String) (l : List (Option String))
    (h : ∀ o ∈ l, o = none ∨ o = some before) :
    pollMoved before l = false := by
  induction l with
  | nil => rfl
  | cons o rest ih =>
    rcases h o (List.mem_cons_self _ _) with rfl | rfl
    · exact ih (fun x hx => h x (List.mem_cons_of_mem _ hx))
    · simp only [pollMoved, ne_eq, not_true_eq_false, if_false,
        reduceIte]
      exact ih (fun x hx => h x (List.mem_cons_of_mem _ hx))

/-- Claim C9: the page loop exits cleanly — with no error raised — when no
"next page" candidate is present and visible, or when every bounded-poll
observation equals the pre-click first-row text (or shows no rows), and it
also exits once the configured page cap is reached. -/
theorem C9_pagination_termination :
    (∀ (sels : List SelObs) (i : Nat) (mp : Option Nat),
        (∀ s ∈ sels, s.visible = false) →
        loopContinues sels i mp = false) ∧
    (∀ (sels : List SelObs) (i : Nat) (mp : Option Nat),
        (∀ s ∈ sels, ∀ o ∈ s.polls, o = none ∨ o = some s.before) →
        loopContinues sels i mp = false) ∧
    (∀ (sels : List SelObs) (i m : Nat), 0 < m → m ≤ i →
        loopContinues sels i (some m) = false) := by
  refine ⟨?_, ?_, ?_⟩
  · intro sels i mp h
    have hta : tryAdvance sels = false := by
      simp only [tryAdvance, List.any_eq_false]
      intro s hs
      simp [h s hs]
    simp [loopContinues, hta]
  · intro sels i mp h
    have hta : tryAdvance sels = false := by
      simp only [tryAdvance, List.any_eq_false]
      intro s hs
      have hpm : pollMoved s.before (s.polls.take 20) = false :=
        pollMoved_eq_false s.before _
          (fun o ho => h s hs o (List.take_subset _ _ ho))
      simp [hpm]
    simp [loopContinues, hta]
  · intro sels i m h1 h2
    have hcap : capReached i (some m) = true := by
      simp [capReached, h1, h2]
    simp [loopContinues, hcap]

/-- Claim C9 witness: the theorem applied to a hidden candidate, a stuck
poll, and a reached page cap. -/
theorem C9_pagination_termination_witness :
    loopContinues [selHidden] 1 none = false ∧
    loopContinues [selStuck] 1 none = false ∧
    loopContinues [selMoving] 3 (some 3) = false :=
  ⟨C9_pagination_termination.1 [selHidden] 1 none (by decide),
   C9_pagination_termination.2.1 [selStuck] 1 none (by decide),
   C9_pagination_termination.2.2 [selMoving] 3 3 (by decide) (by decide)⟩

